import Mathlib

/-!
Shallow embedding of the bidding and auction-closing workflow of the
`commerce` auction application (`src/auctions/views.py`,
`src/auctions/models.py`).

Money values (Django `DecimalField`) are modelled as rationals `ℚ`;
bid timestamps (`DateTimeField` with `auto_now_add=True`) are modelled
by a logical clock of type `Nat` that the state carries and that is
strictly increased each time a `Bid` row is created, so timestamps of
bids on one listing are distinct and increase in insertion order.

The state of the workflow for a single listing consists of the
`Listing` row (fields touched by the workflow: `price`, `is_active`,
`winner`) and the list of `Bid` rows referencing it (fields `value`,
`datetime`, `user`), in insertion order, together with the clock.
-/

/-- A user is identified by primary key, as in the Django models. -/
abbrev UserId := Nat

/-- Monetary amounts (`DecimalField(max_digits=10, decimal_places=2)`). -/
abbrev Money := ℚ

/-- A row of the `Bid` model (`models.py`): `value`, `datetime`
(modelled as a logical-clock tick), and `user` (the bidder).  The
`listing` foreign key is implicit: a state holds the bids of one
listing. -/
structure Bid where
  value : Money
  datetime : Nat
  user : UserId
deriving Repr, DecidableEq

/-- The fields of the `Listing` model that the bidding/closing workflow
reads or writes: `price` (the starting price), `is_active`
(default `True`), and the nullable `winner` foreign key. -/
structure Listing where
  price : Money
  is_active : Bool
  winner : Option UserId
deriving Repr, DecidableEq

/-- The persistent state of the workflow for one listing: the listing
row, its bid rows in insertion order, and the timestamp clock. -/
structure AuctionState where
  listing : Listing
  bids : List Bid
  clock : Nat
deriving Repr, DecidableEq

/-- `Bid.objects.filter(listing_id=...).latest("datetime")`: the bid
row with the maximum `datetime`, or `none` when no bid exists
(`Bid.DoesNotExist`).  In every state produced by the workflow the
timestamps are distinct, so the tie-break is immaterial there. -/
def latestBid : List Bid → Option Bid
  | [] => none
  | b :: bs =>
    match latestBid bs with
    | none => some b
    | some m => if b.datetime < m.datetime then some m else some b

/-- The Python truth value of the condition guarding bid acceptance in
`views.py` (`bid`, lines 246-247):

    (last_bid and cleaned_bid > last_bid)
      or (last_bid is None and cleaned_bid >= listing.price)

`last_bid` is `None` or a `Decimal`; a `Decimal` is truthy exactly when
it is nonzero, so `last_bid and ...` is falsy whenever the latest bid
value equals zero. -/
def acceptCond (last_bid : Option Money) (cleaned_bid price : Money) : Bool :=
  (match last_bid with
   | some b => decide (b ≠ 0) && decide (cleaned_bid > b)
   | none => false)
  || (last_bid == none && decide (cleaned_bid ≥ price))

/-- Outcome of the `bid` view: `placed` (success message, new `Bid`
saved), `invalid` ("Bid is not valid."), or `notValidated` (the form
failed validation and the view just redirects). -/
inductive BidResult where
  | placed
  | invalid
  | notValidated
deriving Repr, DecidableEq

/-- The `bid` view (`views.py`, lines 205-263) for one listing: the
form is valid when the proposed value is nonnegative
(`DecimalField(min_value=0)`); the most recent bid is fetched
(`latest("datetime")`, `None` on `Bid.DoesNotExist`); on acceptance a
new `Bid` row is saved, timestamped at creation time; otherwise the
state is unchanged. -/
def bidView (u : UserId) (v : Money) (s : AuctionState) :
    AuctionState × BidResult :=
  if 0 ≤ v then
    let last_bid := (latestBid s.bids).map Bid.value
    if acceptCond last_bid v s.listing.price then
      ({ s with
          bids := s.bids ++ [{ value := v, datetime := s.clock, user := u }],
          clock := s.clock + 1 },
       BidResult.placed)
    else
      (s, BidResult.invalid)
  else
    (s, BidResult.notValidated)

/-- Outcome of the `close` view: `closed` ("Auction closed
successfully") or `noBids` (`Bid.DoesNotExist` caught, "Auction could
not be closed"). -/
inductive CloseResult where
  | closed
  | noBids
deriving Repr, DecidableEq

/-- The `close` view (`views.py`, lines 266-298): assigns the user of
the latest (maximum-`datetime`) bid as `winner`, sets
`is_active = False` and saves the listing; when no bid exists the
`Bid.DoesNotExist` exception is raised before any field is assigned and
the listing is left untouched. -/
def closeView (s : AuctionState) : AuctionState × CloseResult :=
  match latestBid s.bids with
  | some b =>
      ({ s with
          listing := { s.listing with winner := some b.user, is_active := false } },
       CloseResult.closed)
  | none => (s, CloseResult.noBids)

/-- The current price shown by the `listing` view (`views.py`, lines
301-335): the value of the latest bid, or `listing.price` when no bid
exists. -/
def currentPrice (s : AuctionState) : Money :=
  match latestBid s.bids with
  | some b => b.value
  | none => s.listing.price

/-- A freshly created listing (`new` view and `Listing` model
defaults): the given starting price, `is_active = True`
(`default=True`), no winner (`null=True`), and no bids. -/
def initState (price : Money) : AuctionState :=
  { listing := { price := price, is_active := true, winner := none },
    bids := [],
    clock := 0 }

/-- The operations of the workflow that touch or read the listing's
state: placing a bid, closing the auction, and viewing the listing
page (which performs no write). -/
inductive Op where
  | bidOp (u : UserId) (v : Money)
  | closeOp
  | listingPageOp
deriving Repr, DecidableEq

/-- The state transformation performed by one operation. -/
def applyOp (op : Op) (s : AuctionState) : AuctionState :=
  match op with
  | Op.bidOp u v => (bidView u v s).1
  | Op.closeOp => (closeView s).1
  | Op.listingPageOp => s

/-- Running a sequence of operations from a state. -/
def runOps : AuctionState → List Op → AuctionState
  | s, [] => s
  | s, op :: ops => runOps (applyOp op s) ops

/-- A state is well formed when every stored bid's timestamp is below
the clock; every state the workflow produces from a fresh listing is
well formed. -/
def WF (s : AuctionState) : Prop :=
  ∀ b ∈ s.bids, b.datetime < s.clock

/-- Running a sequence of bid submissions (bidder, proposed value)
through the `bid` view, threading the state. -/
def runBids : AuctionState → List (UserId × Money) → AuctionState
  | s, [] => s
  | s, p :: ps => runBids (bidView p.1 p.2 s).1 ps

/-- The values of the proposals a run of bid submissions accepts, in
submission order. -/
def acceptedValues : AuctionState → List (UserId × Money) → List Money
  | _, [] => []
  | s, p :: ps =>
    (if (bidView p.1 p.2 s).2 = BidResult.placed then [p.2] else [])
      ++ acceptedValues (bidView p.1 p.2 s).1 ps

/-! ### Helper lemmas about `latestBid` -/

lemma latestBid_mem : ∀ {bs : List Bid} {m : Bid}, latestBid bs = some m → m ∈ bs := by
  intro bs
  induction bs with
  | nil => intro m h; simp [latestBid] at h
  | cons b bs ih =>
    intro m h
    simp only [latestBid] at h
    cases hl : latestBid bs with
    | none => rw [hl] at h; simp_all
    | some k =>
      rw [hl] at h
      by_cases hd : b.datetime < k.datetime
      · simp only [hd, if_true] at h
        exact List.mem_cons_of_mem b (ih (hl.trans (congrArg some (Option.some_injective _ h))))
      · simp only [hd, if_false] at h
        simp_all

lemma latestBid_eq_none : ∀ {bs : List Bid}, latestBid bs = none ↔ bs = [] := by
  intro bs
  cases bs with
  | nil => simp [latestBid]
  | cons b bs =>
    constructor
    · intro h
      have hs : (latestBid (b :: bs)).isSome := by
        simp only [latestBid]
        cases latestBid bs with
        | none => rfl
        | some m =>
          by_cases hd : b.datetime < m.datetime <;> simp [hd]
      rw [h] at hs
      simp at hs
    · intro h
      simp at h

lemma latestBid_le : ∀ {bs : List Bid} {m : Bid}, latestBid bs = some m →
    ∀ b ∈ bs, b.datetime ≤ m.datetime := by
  intro bs
  induction bs with
  | nil => intro m _ b hb; simp at hb
  | cons b bs ih =>
    intro m h c hc
    simp only [latestBid] at h
    cases hl : latestBid bs with
    | none =>
      rw [hl] at h
      have hbs : bs = [] := latestBid_eq_none.mp hl
      subst hbs
      simp_all
    | some k =>
      rw [hl] at h
      by_cases hd : b.datetime < k.datetime
      · simp only [hd, if_true, Option.some_inj] at h
        subst h
        rcases List.mem_cons.mp hc with hcb | hcbs
        · exact hcb ▸ le_of_lt hd
        · exact ih hl c hcbs
      · simp only [hd, if_false, Option.some_inj] at h
        subst h
        rcases List.mem_cons.mp hc with hcb | hcbs
        · exact hcb ▸ le_refl _
        · exact le_trans (ih hl c hcbs) (not_lt.mp hd)

lemma latestBid_append_fresh : ∀ (bs : List Bid) (nb : Bid),
    (∀ b ∈ bs, b.datetime < nb.datetime) → latestBid (bs ++ [nb]) = some nb := by
  intro bs
  induction bs with
  | nil => intro nb _; rfl
  | cons b bs ih =>
    intro nb h
    have hb : b.datetime < nb.datetime := h b (List.mem_cons_self b bs)
    have ht : latestBid (bs ++ [nb]) = some nb :=
      ih nb (fun c hc => h c (List.mem_cons_of_mem b hc))
    simp [latestBid, ht, hb]

/-! ### Helper lemmas about the views -/

lemma bidView_listing (u : UserId) (v : Money) (s : AuctionState) :
    (bidView u v s).1.listing = s.listing := by
  by_cases hv : 0 ≤ v
  · by_cases hc : acceptCond ((latestBid s.bids).map Bid.value) v s.listing.price
    · simp [bidView, hv, hc]
    · simp [bidView, hv, hc]
  · simp [bidView, hv]

lemma bidView_reject_state (u : UserId) (v : Money) (s : AuctionState)
    (h : (bidView u v s).2 ≠ BidResult.placed) : (bidView u v s).1 = s := by
  by_cases hv : 0 ≤ v
  · by_cases hc : acceptCond ((latestBid s.bids).map Bid.value) v s.listing.price
    · exact absurd (by simp [bidView, hv, hc]) h
    · simp [bidView, hv, hc]
  · simp [bidView, hv]

lemma bidView_placed_state (u : UserId) (v : Money) (s : AuctionState)
    (h : (bidView u v s).2 = BidResult.placed) :
    (bidView u v s).1 =
      { s with
          bids := s.bids ++ [{ value := v, datetime := s.clock, user := u }],
          clock := s.clock + 1 } := by
  by_cases hv : 0 ≤ v
  · by_cases hc : acceptCond ((latestBid s.bids).map Bid.value) v s.listing.price
    · simp [bidView, hv, hc]
    · exact absurd h (by simp [bidView, hv, hc])
  · exact absurd h (by simp [bidView, hv])

lemma WF_bidView (u : UserId) (v : Money) (s : AuctionState) (hwf : WF s) :
    WF (bidView u v s).1 := by
  by_cases hp : (bidView u v s).2 = BidResult.placed
  · rw [bidView_placed_state u v s hp]
    intro b hb
    rcases List.mem_append.mp hb with hold | hnew
    · exact lt_trans (hwf b hold) (Nat.lt_succ_self _)
    · simp at hnew
      rw [hnew]
      exact Nat.lt_succ_self _
  · rw [bidView_reject_state u v s hp]
    exact hwf

lemma currentPrice_after_placed (u : UserId) (v : Money) (s : AuctionState)
    (hwf : WF s) (h : (bidView u v s).2 = BidResult.placed) :
    currentPrice (bidView u v s).1 = v := by
  rw [bidView_placed_state u v s h]
  have hl : latestBid (s.bids ++ [{ value := v, datetime := s.clock, user := u }]) =
      some { value := v, datetime := s.clock, user := u } :=
    latestBid_append_fresh s.bids _ (fun b hb => hwf b hb)
  simp [currentPrice, hl]

lemma closeView_bids (s : AuctionState) : (closeView s).1.bids = s.bids := by
  cases hl : latestBid s.bids with
  | none => simp [closeView, hl]
  | some b => simp [closeView, hl]

lemma getLast?_cons_getD (x d : Money) (l : List Money) :
    ((x :: l).getLast?).getD d = (l.getLast?).getD x := by
  induction l generalizing x d with
  | nil => simp
  | cons a as ih =>
    rw [List.getLast?_cons_cons, ih a d, ih a x]

lemma runBids_currentPrice : ∀ (props : List (UserId × Money)) (s : AuctionState), WF s →
    currentPrice (runBids s props) =
      ((acceptedValues s props).getLast?).getD (currentPrice s) := by
  intro props
  induction props with
  | nil => intro s _; simp [runBids, acceptedValues]
  | cons p ps ih =>
    intro s hwf
    by_cases hp : (bidView p.1 p.2 s).2 = BidResult.placed
    · have hih := ih (bidView p.1 p.2 s).1 (WF_bidView p.1 p.2 s hwf)
      rw [currentPrice_after_placed p.1 p.2 s hwf hp] at hih
      have ha : acceptedValues s (p :: ps) =
          p.2 :: acceptedValues (bidView p.1 p.2 s).1 ps := by
        simp [acceptedValues, hp]
      show currentPrice (runBids (bidView p.1 p.2 s).1 ps) = _
      rw [hih, ha, getLast?_cons_getD]
    · have hs1 : (bidView p.1 p.2 s).1 = s := bidView_reject_state p.1 p.2 s hp
      have ha : acceptedValues s (p :: ps) = acceptedValues s ps := by
        simp [acceptedValues, hp, hs1]
      show currentPrice (runBids (bidView p.1 p.2 s).1 ps) = _
      rw [hs1, ha]
      exact ih s hwf

/-- The state invariant of claim C9: a winner is recorded only on an
inactive listing. -/
def WinnerInv (s : AuctionState) : Prop :=
  s.listing.winner = none ∨ s.listing.is_active = false

lemma winnerInv_applyOp (op : Op) (s : AuctionState) (h : WinnerInv s) :
    WinnerInv (applyOp op s) := by
  cases op with
  | bidOp u v =>
    show WinnerInv (bidView u v s).1
    unfold WinnerInv
    rw [bidView_listing u v s]
    exact h
  | closeOp =>
    show WinnerInv (closeView s).1
    cases hl : latestBid s.bids with
    | none => simpa [closeView, hl] using h
    | some b => simp [WinnerInv, closeView, hl]
  | listingPageOp => exact h

lemma winnerInv_runOps : ∀ (ops : List Op) (s : AuctionState), WinnerInv s →
    WinnerInv (runOps s ops) := by
  intro ops
  induction ops with
  | nil => intro s h; exact h
  | cons op ops ih =>
    intro s h
    exact ih (applyOp op s) (winnerInv_applyOp op s h)

/-! ### Claims -/

/-- C2: a successful close sets the listing's winner to the bidder of
the bid with the maximum timestamp for that listing (not the maximum
value) and sets `is_active` to false. -/
theorem close_assigns_latest_bidder (s : AuctionState) (b : Bid)
    (h : latestBid s.bids = some b) :
    b ∈ s.bids ∧ (∀ c ∈ s.bids, c.datetime ≤ b.datetime) ∧
    closeView s =
      ({ s with listing :=
          { s.listing with winner := some b.user, is_active := false } },
       CloseResult.closed) :=
  ⟨latestBid_mem h, latestBid_le h, by simp [closeView, h]⟩

/-- Witness for C2: two bids where the later bid (timestamp 1) has the
smaller value; closing picks its bidder, user 2, as winner. -/
theorem close_assigns_latest_bidder_witness :
    closeView
        { listing := { price := 10, is_active := true, winner := none },
          bids := [{ value := 15, datetime := 0, user := 1 },
                   { value := 10, datetime := 1, user := 2 }],
          clock := 2 }
      = ({ listing := { price := 10, is_active := false, winner := some 2 },
           bids := [{ value := 15, datetime := 0, user := 1 },
                    { value := 10, datetime := 1, user := 2 }],
           clock := 2 }, CloseResult.closed) :=
  (close_assigns_latest_bidder
    { listing := { price := 10, is_active := true, winner := none },
      bids := [{ value := 15, datetime := 0, user := 1 },
               { value := 10, datetime := 1, user := 2 }],
      clock := 2 }
    { value := 10, datetime := 1, user := 2 } rfl).2.2

/-- C3: on a listing with no bids, a nonnegative proposed value is
accepted exactly when it is at least the starting price, and on
acceptance the new bid is the single stored bid record. -/
theorem first_bid_accept_iff (u : UserId) (v : Money) (s : AuctionState)
    (hb : s.bids = []) (hv : 0 ≤ v) :
    ((bidView u v s).2 = BidResult.placed ↔ s.listing.price ≤ v)
    ∧ (s.listing.price ≤ v →
        bidView u v s =
          ({ s with
              bids := [{ value := v, datetime := s.clock, user := u }],
              clock := s.clock + 1 }, BidResult.placed)) := by
  by_cases hp : s.listing.price ≤ v
  · constructor
    · simp [bidView, hb, latestBid, acceptCond, hv, hp]
    · intro _
      simp [bidView, hb, latestBid, acceptCond, hv, hp]
  · constructor
    · simp [bidView, hb, latestBid, acceptCond, hv, hp]
    · intro hp2
      exact absurd hp2 hp

/-- Witness for C3: a first bid equal to the starting price (50) is
accepted and stored. -/
theorem first_bid_accept_iff_witness :
    bidView 1 50 (initState 50) =
      ({ listing := { price := 50, is_active := true, winner := none },
         bids := [{ value := 50, datetime := 0, user := 1 }],
         clock := 1 }, BidResult.placed) :=
  (first_bid_accept_iff 1 50 (initState 50) rfl (by norm_num)).2
    (by norm_num [initState])

/-- C4: closing a listing with zero bids signals the no-bids error and
leaves the state, in particular `is_active` and `winner`, unmodified. -/
theorem close_without_bids_noop (s : AuctionState) (h : s.bids = []) :
    closeView s = (s, CloseResult.noBids) := by
  simp [closeView, h, latestBid]

/-- Witness for C4: closing a fresh listing with no bids. -/
theorem close_without_bids_noop_witness :
    closeView (initState 7) = (initState 7, CloseResult.noBids) :=
  close_without_bids_noop (initState 7) rfl

/-- C5: when the latest bid of a listing has value exactly 0, every
form-valid proposed value is rejected, because `Decimal("0.00")` is
falsy in the acceptance condition. -/
theorem bid_after_zero_latest_rejected (u : UserId) (v : Money)
    (s : AuctionState) (b : Bid) (hl : latestBid s.bids = some b)
    (hz : b.value = 0) (hv : 0 ≤ v) :
    bidView u v s = (s, BidResult.invalid) := by
  simp [bidView, hv, hl, acceptCond, hz]

/-- Witness for C5: the zero-latest-bid state is reachable as a first
bid of 0 on a listing with starting price 0, and a later bid of 5 is
rejected there. -/
theorem bid_after_zero_latest_rejected_witness :
    latestBid ((bidView 1 0 (initState 0)).1).bids =
      some { value := 0, datetime := 0, user := 1 }
    ∧ bidView 2 5 ((bidView 1 0 (initState 0)).1) =
        ((bidView 1 0 (initState 0)).1, BidResult.invalid) :=
  ⟨by decide,
   bid_after_zero_latest_rejected 2 5 ((bidView 1 0 (initState 0)).1)
     { value := 0, datetime := 0, user := 1 } (by decide) rfl (by norm_num)⟩

/-- C7: a proposed value that fails the acceptance condition leaves the
state unchanged (no bid record is created, the listing's fields are
untouched) and only the rejection is signalled. -/
theorem bid_rejected_no_mutation (u : UserId) (v : Money) (s : AuctionState)
    (hv : 0 ≤ v)
    (h : acceptCond ((latestBid s.bids).map Bid.value) v s.listing.price = false) :
    bidView u v s = (s, BidResult.invalid) := by
  simp [bidView, hv, h]

/-- Witness for C7: a first bid of 30 on a listing with starting price
50 fails the acceptance condition and changes nothing. -/
theorem bid_rejected_no_mutation_witness :
    acceptCond ((latestBid (initState 50).bids).map Bid.value) 30
        (initState 50).listing.price = false
    ∧ bidView 3 30 (initState 50) = (initState 50, BidResult.invalid) :=
  ⟨by decide,
   bid_rejected_no_mutation 3 30 (initState 50) (by norm_num) (by decide)⟩

/-- C10: closing an already-closed listing recomputes the same winner
from the same latest bid and re-persists the same state, so close is
idempotent when no bids are added in between. -/
theorem close_idempotent (s : AuctionState) :
    closeView (closeView s).1 = closeView s := by
  cases hl : latestBid s.bids with
  | none =>
    have h1 : (closeView s).1 = s := by simp [closeView, hl]
    rw [h1]
  | some b =>
    have hb : latestBid (closeView s).1.bids = some b := by
      rw [closeView_bids]
      exact hl
    simp [closeView, hl, hb]

/-- C6: the current price shown by the listing page is the value of the
most recent (maximum-timestamp) bid, or the starting price with no
bids; and after any run of bid submissions it equals the value of the
most recently accepted submission (or stays put when none was
accepted). -/
theorem listing_page_current_price (s : AuctionState)
    (props : List (UserId × Money)) (hwf : WF s) :
    (s.bids = [] → currentPrice s = s.listing.price)
    ∧ (∀ b, latestBid s.bids = some b → currentPrice s = b.value)
    ∧ currentPrice (runBids s props) =
        ((acceptedValues s props).getLast?).getD (currentPrice s) := by
  refine ⟨fun hb => ?_, fun b hb => ?_, runBids_currentPrice props s hwf⟩
  · simp [currentPrice, hb, latestBid]
  · simp [currentPrice, hb]

/-- Witness for C6: submissions 60, 55, 70 on a fresh listing priced
50; 60 and 70 are accepted and the final current price is the last
accepted value. -/
theorem listing_page_current_price_witness :
    currentPrice (runBids (initState 50) [(1, 60), (2, 55), (3, 70)]) =
      ((acceptedValues (initState 50) [(1, 60), (2, 55), (3, 70)]).getLast?).getD
        (currentPrice (initState 50)) :=
  (listing_page_current_price (initState 50) [(1, 60), (2, 55), (3, 70)]
    (by intro b hb; simp [initState] at hb)).2.2

/-- C8: once a listing's `is_active` is false, no sequence of workflow
operations (bids, closes, listing-page views) ever makes it true
again. -/
theorem closed_stays_closed (s : AuctionState) (ops : List Op)
    (h : s.listing.is_active = false) :
    (runOps s ops).listing.is_active = false := by
  induction ops generalizing s with
  | nil => exact h
  | cons op ops ih =>
    show (runOps (applyOp op s) ops).listing.is_active = false
    apply ih
    cases op with
    | bidOp u v =>
      show (bidView u v s).1.listing.is_active = false
      rw [bidView_listing]
      exact h
    | closeOp =>
      show (closeView s).1.listing.is_active = false
      cases hl : latestBid s.bids with
      | none => simpa [closeView, hl] using h
      | some b => simp [closeView, hl]
    | listingPageOp => exact h

/-- Witness for C8: a closed listing stays closed through a further
bid, a further close, and a page view. -/
theorem closed_stays_closed_witness :
    (runOps
      { listing := { price := 5, is_active := false, winner := some 1 },
        bids := [{ value := 5, datetime := 0, user := 1 }],
        clock := 1 }
      [Op.bidOp 2 6, Op.closeOp, Op.listingPageOp]).listing.is_active = false :=
  closed_stays_closed
    { listing := { price := 5, is_active := false, winner := some 1 },
      bids := [{ value := 5, datetime := 0, user := 1 }],
      clock := 1 }
    [Op.bidOp 2 6, Op.closeOp, Op.listingPageOp] rfl

/-- C9: in every state reachable from a freshly created listing by the
workflow operations, a non-null winner implies the listing is
inactive. -/
theorem winner_only_when_inactive (price : Money) (ops : List Op)
    (h : (runOps (initState price) ops).listing.winner ≠ none) :
    (runOps (initState price) ops).listing.is_active = false := by
  rcases winnerInv_runOps ops (initState price) (Or.inl rfl) with hw | hi
  · exact absurd hw h
  · exact hi

/-- Witness for C9: after one accepted bid and a close, the winner is
set and the listing is indeed inactive. -/
theorem winner_only_when_inactive_witness :
    (runOps (initState 5) [Op.bidOp 1 5, Op.closeOp]).listing.winner ≠ none
    ∧ (runOps (initState 5) [Op.bidOp 1 5, Op.closeOp]).listing.is_active = false :=
  ⟨by decide, winner_only_when_inactive 5 [Op.bidOp 1 5, Op.closeOp] (by decide)⟩

/-- C1: evaluation of the `bid` view at the failing input.  On a
listing whose latest bid has value 0 (price 0, first bid 0 accepted), a
proposed value 1 satisfies 1 > 0 yet is rejected: in the Python
condition `last_bid and cleaned_bid > last_bid` the `Decimal("0.00")`
latest value is falsy, so the strict-increase rule of the spec (and of
the view's own docstring) is not applied. -/
theorem bid_strict_rule_fails_at_zero_latest :
    latestBid ((bidView 1 0 (initState 0)).1).bids =
      some { value := 0, datetime := 0, user := 1 }
    ∧ (0 : Money) < 1
    ∧ bidView 2 1 ((bidView 1 0 (initState 0)).1) =
        ((bidView 1 0 (initState 0)).1, BidResult.invalid) := by
  refine ⟨by decide, by norm_num, by decide⟩
